import Mathlib

/-!
Shallow embedding of the fee-calculation and tip-limiting utilities of the
`iftiin-tips` repository (source file `src/unnamed/part_000`).

Machine numbers (JS `number`) are modelled as exact integers `ℤ`, with
`Math.ceil` on the fee fraction modelled as the exact ceiling `Int.ceil`
over `ℚ`.  `Array.prototype.sort` with comparator `(a, b) => b.amount - a.amount`
is a stable in-place sort by descending `amount`; it is modelled by the stable
`List.insertionSort` with the relation `byAmountDesc`, and the in-place
mutation of the caller's array is exposed by `limitTipsInputAfter`.
-/

namespace IftiinTips

open List

/-- Modelled from the spec: the constants module `lib/constants` is not part of
the source slice; the spec describes `MINIMUM_FEE_SATS`, `FEE_PERCENT`,
`MAX_TIP_SATS` and `MAX_TIPS_WITHDRAWABLE` as external integer configuration
(`FEE_PERCENT` numeric in `(0,100)`) and uses `MINIMUM_FEE_SATS = 2` in its
worked examples.  The functions below therefore take the constants as explicit
parameters; these definitions record the spec's example configuration. -/
def MINIMUM_FEE_SATS : ℤ := 2

/-- Modelled from the spec: example value `FEE_PERCENT = 1` (see
`MINIMUM_FEE_SATS`). -/
def FEE_PERCENT : ℚ := 1

/-- Modelled from the spec: example value `MAX_TIP_SATS = 1000` (see
`MINIMUM_FEE_SATS`). -/
def MAX_TIP_SATS : ℤ := 1000

/-- Modelled from the spec: example value `MAX_TIPS_WITHDRAWABLE = 3` (see
`MINIMUM_FEE_SATS`). -/
def MAX_TIPS_WITHDRAWABLE : ℕ := 3

/-- `Math.ceil(x * (FEE_PERCENT / 100))` from the source, in exact arithmetic. -/
def feeCeil (p : ℚ) (x : ℤ) : ℤ :=
  Int.ceil ((x : ℚ) * (p / 100))

/-- `calculateFee` from `src/unnamed/part_000`:

    const originalFee = Math.max(MINIMUM_FEE_SATS,
      Math.ceil(amount * (FEE_PERCENT / 100)));
    return Math.max(MINIMUM_FEE_SATS,
      Math.ceil((amount + originalFee) * (FEE_PERCENT / 100)));

with the two constants passed as parameters `minFee` and `p`. -/
def calculateFee (minFee : ℤ) (p : ℚ) (amount : ℤ) : ℤ :=
  let originalFee := max minFee (feeCeil p amount)
  max minFee (feeCeil p (amount + originalFee))

/-- A tip record: the spec's data model is "a record with at least
`amount: Amount` and an identifier"; `limitTips` only reads `amount`. -/
structure Tip where
  id : ℕ
  amount : ℤ
deriving DecidableEq

/-- The sort relation induced by the comparator `(a, b) => b.amount - a.amount`:
`a` may come before `b` exactly when `amt b ≤ amt a` (descending amount).
Generic over the element type, since `limitTips<T extends Tip>` reads only
`amount`. -/
def byAmountDesc {T : Type} (amt : T → ℤ) : T → T → Prop :=
  fun a b => amt b ≤ amt a

instance {T : Type} (amt : T → ℤ) : DecidableRel (byAmountDesc amt) :=
  fun a b => inferInstanceAs (Decidable (amt b ≤ amt a))

instance {T : Type} (amt : T → ℤ) : IsTotal T (byAmountDesc amt) :=
  ⟨fun a b => le_total (amt b) (amt a)⟩

instance {T : Type} (amt : T → ℤ) : IsTrans T (byAmountDesc amt) :=
  ⟨fun _ _ _ h1 h2 => le_trans h2 h1⟩

/-- `limitedTips.map((tip) => tip.amount).reduce((a, b) => a + b, 0)` from the
source: the total amount of a list of tips. -/
def tipSum {T : Type} (amt : T → ℤ) (l : List T) : ℤ :=
  (l.map amt).foldl (· + ·) 0

/-- The `while` loop of `limitTips`:

    while (limitedTips.map(...).reduce(...) > MAX_TIP_SATS) limitedTips.pop();

Each iteration removes the last element, so the loop runs at most `l.length`
times before the selection is empty; the fuel argument makes that bound
explicit (structural recursion).  On an empty selection the source's loop
guard is `0 > MAX_TIP_SATS`, which is false for every non-negative
`MAX_TIP_SATS`, so for `0 ≤ maxSats` the model agrees with the source at
every step. -/
def trimTipsFuel {T : Type} (amt : T → ℤ) (maxSats : ℤ) : ℕ → List T → List T
  | 0, l => l
  | n + 1, l => if maxSats < tipSum amt l then trimTipsFuel amt maxSats n l.dropLast else l

/-- The `while` loop of `limitTips`, run to completion on selection `l`. -/
def trimTips {T : Type} (amt : T → ℤ) (maxSats : ℤ) (l : List T) : List T :=
  trimTipsFuel amt maxSats l.length l

/-- `tips.sort((a, b) => b.amount - a.amount)`: a stable sort by descending
amount (ES2019 `Array.prototype.sort` is stable), modelled by the stable
`List.insertionSort`. -/
def sortByAmountDesc {T : Type} (amt : T → ℤ) (tips : List T) : List T :=
  List.insertionSort (byAmountDesc amt) tips

/-- `limitTips` from `src/unnamed/part_000`: sort by descending amount, keep
the first `maxTips` (`.slice(0, MAX_TIPS_WITHDRAWABLE)`), then pop from the
end while the total exceeds `maxSats`.  The constants are passed as the
parameters `maxTips` and `maxSats`. -/
def limitTips {T : Type} (amt : T → ℤ) (maxTips : ℕ) (maxSats : ℤ) (tips : List T) : List T :=
  trimTips amt maxSats ((sortByAmountDesc amt tips).take maxTips)

/-- In the source, `tips.sort(...)` sorts the caller's array in place
(`.slice` then copies the first elements into the fresh `limitedTips` array,
and `.pop()` acts only on that copy).  This is the state of the caller's
`tips` array after `limitTips` returns. -/
def limitTipsInputAfter {T : Type} (amt : T → ℤ) (tips : List T) : List T :=
  sortByAmountDesc amt tips

/-! ### Basic lemmas about the embedded definitions -/

/-- Unfolding of `calculateFee` with the intermediate `originalFee` inlined. -/
lemma calculateFee_def (minFee : ℤ) (p : ℚ) (amount : ℤ) :
    calculateFee minFee p amount
      = max minFee (feeCeil p (amount + max minFee (feeCeil p amount))) := rfl

/-- Concrete evaluation of `feeCeil` via the characterisation of `Int.ceil`. -/
lemma feeCeil_eq {p : ℚ} {x z : ℤ} (h1 : (z : ℚ) - 1 < (x : ℚ) * (p / 100))
    (h2 : (x : ℚ) * (p / 100) ≤ (z : ℚ)) : feeCeil p x = z := by
  rw [feeCeil, Int.ceil_eq_iff]
  exact ⟨h1, h2⟩

lemma feeCeil_mono {p : ℚ} (hp : 0 ≤ p) {x y : ℤ} (h : x ≤ y) :
    feeCeil p x ≤ feeCeil p y := by
  apply Int.ceil_le_ceil
  have hq : (0 : ℚ) ≤ p / 100 := by positivity
  exact mul_le_mul_of_nonneg_right (by exact_mod_cast h) hq

lemma foldl_add_shift (a : ℤ) (xs : List ℤ) :
    xs.foldl (· + ·) a = a + xs.foldl (· + ·) 0 := by
  induction xs generalizing a with
  | nil => simp
  | cons x xs ih =>
    simp only [List.foldl_cons]
    rw [ih (a + x), ih (0 + x)]
    ring

lemma tipSum_nil {T : Type} (amt : T → ℤ) : tipSum amt ([] : List T) = 0 := rfl

lemma tipSum_cons {T : Type} (amt : T → ℤ) (t : T) (ts : List T) :
    tipSum amt (t :: ts) = amt t + tipSum amt ts := by
  simp only [tipSum, List.map_cons, List.foldl_cons]
  rw [foldl_add_shift]
  ring

/-- A non-empty list of tips whose amounts each exceed a non-negative bound has
total amount exceeding the bound. -/
lemma tipSum_all_gt {T : Type} (amt : T → ℤ) {ms : ℤ} (h0 : 0 ≤ ms) :
    ∀ l : List T, l ≠ [] → (∀ t ∈ l, ms < amt t) → ms < tipSum amt l := by
  intro l
  induction l with
  | nil => intro h; exact absurd rfl h
  | cons t ts ih =>
    intro _ hall
    rw [tipSum_cons]
    have ht : ms < amt t := hall t (List.mem_cons_self t ts)
    cases ts with
    | nil => simpa [tipSum_nil] using ht
    | cons u us =>
      have hts : ms < tipSum amt (u :: us) :=
        ih (by simp) (fun x hx => hall x (List.mem_cons_of_mem t hx))
      omega

lemma trimTipsFuel_sublist {T : Type} (amt : T → ℤ) (ms : ℤ) :
    ∀ (n : ℕ) (l : List T), trimTipsFuel amt ms n l <+ l := by
  intro n
  induction n with
  | zero => intro l; exact List.Sublist.refl l
  | succ n ih =>
    intro l
    rw [trimTipsFuel]
    by_cases hc : ms < tipSum amt l
    · rw [if_pos hc]
      exact (ih l.dropLast).trans (List.dropLast_sublist l)
    · rw [if_neg hc]

lemma trimTipsFuel_sum_le {T : Type} (amt : T → ℤ) {ms : ℤ} (h0 : 0 ≤ ms) :
    ∀ (n : ℕ) (l : List T), l.length ≤ n → tipSum amt (trimTipsFuel amt ms n l) ≤ ms := by
  intro n
  induction n with
  | zero =>
    intro l hl
    have : l = [] := List.length_eq_zero.mp (Nat.le_zero.mp hl)
    subst this
    simpa [trimTipsFuel, tipSum_nil] using h0
  | succ n ih =>
    intro l hl
    rw [trimTipsFuel]
    by_cases hc : ms < tipSum amt l
    · rw [if_pos hc]
      apply ih
      have := List.length_dropLast l
      omega
    · rw [if_neg hc]
      exact not_lt.mp hc

lemma trimTipsFuel_of_sum_le {T : Type} (amt : T → ℤ) {ms : ℤ} {l : List T}
    (h : tipSum amt l ≤ ms) : ∀ n, trimTipsFuel amt ms n l = l := by
  intro n
  cases n with
  | zero => rfl
  | succ n => rw [trimTipsFuel, if_neg (not_lt.mpr h)]

/-- If every tip in the selection exceeds the (non-negative) cap by itself,
the trimming loop empties the selection. -/
lemma trimTipsFuel_all_gt {T : Type} (amt : T → ℤ) {ms : ℤ} (h0 : 0 ≤ ms) :
    ∀ (n : ℕ) (l : List T), l.length ≤ n → (∀ t ∈ l, ms < amt t) →
      trimTipsFuel amt ms n l = [] := by
  intro n
  induction n with
  | zero =>
    intro l hl _
    exact List.length_eq_zero.mp (Nat.le_zero.mp hl)
  | succ n ih =>
    intro l hl hall
    rw [trimTipsFuel]
    cases l with
    | nil => rw [if_neg (by simpa [tipSum_nil] using not_lt.mpr h0)]
    | cons t ts =>
      rw [if_pos (tipSum_all_gt amt h0 (t :: ts) (by simp) hall)]
      apply ih
      · have := List.length_dropLast (t :: ts)
        omega
      · exact fun x hx => hall x (List.dropLast_subset (t :: ts) hx)

lemma trimTips_sublist {T : Type} (amt : T → ℤ) (ms : ℤ) (l : List T) :
    trimTips amt ms l <+ l :=
  trimTipsFuel_sublist amt ms l.length l

lemma trimTips_sum_le {T : Type} (amt : T → ℤ) {ms : ℤ} (h0 : 0 ≤ ms) (l : List T) :
    tipSum amt (trimTips amt ms l) ≤ ms :=
  trimTipsFuel_sum_le amt h0 l.length l le_rfl

lemma trimTips_of_sum_le {T : Type} (amt : T → ℤ) {ms : ℤ} {l : List T}
    (h : tipSum amt l ≤ ms) : trimTips amt ms l = l :=
  trimTipsFuel_of_sum_le amt h l.length

lemma limitTips_sublist_sorted {T : Type} (amt : T → ℤ) (mt : ℕ) (ms : ℤ) (tips : List T) :
    limitTips amt mt ms tips <+ sortByAmountDesc amt tips :=
  (trimTips_sublist amt ms _).trans (List.take_sublist mt _)

lemma sorted_limitTips {T : Type} (amt : T → ℤ) (mt : ℕ) (ms : ℤ) (tips : List T) :
    List.Sorted (byAmountDesc amt) (limitTips amt mt ms tips) :=
  (List.sorted_insertionSort _ tips).sublist (limitTips_sublist_sorted amt mt ms tips)

lemma limitTips_length_le {T : Type} (amt : T → ℤ) (mt : ℕ) (ms : ℤ) (tips : List T) :
    (limitTips amt mt ms tips).length ≤ mt :=
  le_trans (trimTips_sublist amt ms _).length_le (List.length_take_le mt _)

lemma sortByAmountDesc_eq_self {T : Type} {amt : T → ℤ} {l : List T}
    (h : List.Sorted (byAmountDesc amt) l) : sortByAmountDesc amt l = l :=
  h.insertionSort_eq

/-! ### Claims -/

/-- Claim C1: the spec asserts the fee-reserve postcondition
`calculateFee(amount) >= ceil((amount + calculateFee(amount)) * FEE_PERCENT / 100)`
for every `amount >= 0`, and the code's own comment states the same intent
("the original amount must be withdrawable leaving at least 1% reserve").
The code violates it at `amount = 10000` (with the spec's example configuration
`FEE_PERCENT = 1`, `MINIMUM_FEE_SATS = 2`): it returns fee `101`, but the
reserve requirement recomputed against the final fee is
`ceil((10000 + 101) * 1 / 100) = 102 > 101`. -/
theorem calculateFee_reserve_violated_at_10000 :
    calculateFee MINIMUM_FEE_SATS FEE_PERCENT 10000 = 101 ∧
    feeCeil FEE_PERCENT (10000 + calculateFee MINIMUM_FEE_SATS FEE_PERCENT 10000) = 102 ∧
    ¬ feeCeil FEE_PERCENT (10000 + calculateFee MINIMUM_FEE_SATS FEE_PERCENT 10000)
        ≤ calculateFee MINIMUM_FEE_SATS FEE_PERCENT 10000 := by
  have h : calculateFee MINIMUM_FEE_SATS FEE_PERCENT 10000 = 101 := by
    show calculateFee 2 1 10000 = 101
    rw [calculateFee_def,
      show feeCeil 1 (10000 : ℤ) = 100 from feeCeil_eq (by norm_num) (by norm_num),
      show feeCeil 1 ((10000 : ℤ) + max 2 100) = 101 from feeCeil_eq (by norm_num) (by norm_num)]
    decide
  have h2 : feeCeil FEE_PERCENT (10000 + calculateFee MINIMUM_FEE_SATS FEE_PERCENT 10000)
      = 102 := by
    rw [h]
    show feeCeil 1 ((10000 : ℤ) + 101) = 102
    exact feeCeil_eq (by norm_num) (by norm_num)
  exact ⟨h, h2, by rw [h2, h]; decide⟩

/-- Claim C2 (counterexample): the claim that `limitTips` leaves the caller's
list unchanged is false.  In the source, `tips.sort(...)` sorts the caller's
array in place before `.slice` copies it, so after the call the caller's array
has been reordered: for the input `[{amount: 1}, {amount: 2}]` the caller is
left holding `[{amount: 2}, {amount: 1}]`. -/
theorem limitTips_mutates_input :
    limitTipsInputAfter Tip.amount [⟨0, 1⟩, ⟨1, 2⟩] ≠ [⟨0, 1⟩, ⟨1, 2⟩] := by
  decide

/-- Claim C2 (amended): `limitTips` adds, removes and modifies no element of
the caller's list, but does reorder it in place: after the call the caller's
list is a permutation of its previous contents, sorted by descending amount. -/
theorem limitTips_input_after_perm {T : Type} (amt : T → ℤ) (tips : List T) :
    limitTipsInputAfter amt tips ~ tips ∧
    List.Sorted (byAmountDesc amt) (limitTipsInputAfter amt tips) :=
  ⟨List.perm_insertionSort _ tips, List.sorted_insertionSort _ tips⟩

/-- Claim C3: for every input list, the result of `limitTips` has length at
most `maxTips` (= `MAX_TIPS_WITHDRAWABLE`) and total amount at most `maxSats`
(= `MAX_TIP_SATS`), for any non-negative cap. -/
theorem limitTips_length_sum_bounds {T : Type} (amt : T → ℤ) (mt : ℕ) {ms : ℤ}
    (h0 : 0 ≤ ms) (tips : List T) :
    (limitTips amt mt ms tips).length ≤ mt ∧
    tipSum amt (limitTips amt mt ms tips) ≤ ms :=
  ⟨limitTips_length_le amt mt ms tips, trimTips_sum_le amt h0 _⟩

/-- Witness for C3 at the spec's example configuration and example input. -/
theorem limitTips_length_sum_bounds_witness :
    (limitTips Tip.amount MAX_TIPS_WITHDRAWABLE MAX_TIP_SATS
        [⟨0, 500⟩, ⟨1, 400⟩, ⟨2, 300⟩, ⟨3, 200⟩]).length ≤ MAX_TIPS_WITHDRAWABLE ∧
    tipSum Tip.amount (limitTips Tip.amount MAX_TIPS_WITHDRAWABLE MAX_TIP_SATS
        [⟨0, 500⟩, ⟨1, 400⟩, ⟨2, 300⟩, ⟨3, 200⟩]) ≤ MAX_TIP_SATS :=
  limitTips_length_sum_bounds Tip.amount MAX_TIPS_WITHDRAWABLE (by decide)
    [⟨0, 500⟩, ⟨1, 400⟩, ⟨2, 300⟩, ⟨3, 200⟩]

/-- Claim C4: `limitTips` is idempotent (for any non-negative amount cap):
running it on its own output returns that output unchanged, same elements in
the same order. -/
theorem limitTips_idempotent {T : Type} (amt : T → ℤ) (mt : ℕ) {ms : ℤ}
    (h0 : 0 ≤ ms) (tips : List T) :
    limitTips amt mt ms (limitTips amt mt ms tips) = limitTips amt mt ms tips := by
  have hsorted := sorted_limitTips amt mt ms tips
  have hlen := limitTips_length_le amt mt ms tips
  have hsum : tipSum amt (limitTips amt mt ms tips) ≤ ms := trimTips_sum_le amt h0 _
  show trimTips amt ms ((sortByAmountDesc amt (limitTips amt mt ms tips)).take mt)
      = limitTips amt mt ms tips
  rw [sortByAmountDesc_eq_self hsorted, List.take_of_length_le hlen]
  exact trimTips_of_sum_le amt hsum

/-- Witness for C4 at the spec's example configuration and example input. -/
theorem limitTips_idempotent_witness :
    limitTips Tip.amount MAX_TIPS_WITHDRAWABLE MAX_TIP_SATS
        (limitTips Tip.amount MAX_TIPS_WITHDRAWABLE MAX_TIP_SATS
          [⟨0, 500⟩, ⟨1, 400⟩, ⟨2, 300⟩, ⟨3, 200⟩])
      = limitTips Tip.amount MAX_TIPS_WITHDRAWABLE MAX_TIP_SATS
          [⟨0, 500⟩, ⟨1, 400⟩, ⟨2, 300⟩, ⟨3, 200⟩] :=
  limitTips_idempotent Tip.amount MAX_TIPS_WITHDRAWABLE (by decide)
    [⟨0, 500⟩, ⟨1, 400⟩, ⟨2, 300⟩, ⟨3, 200⟩]

/-- Claim C5: `calculateFee` is monotone: `0 ≤ amount1 ≤ amount2` implies
`calculateFee amount1 ≤ calculateFee amount2`, for any non-negative
`FEE_PERCENT`. -/
theorem calculateFee_monotone (minFee : ℤ) {p : ℚ} (hp : 0 ≤ p) {a1 a2 : ℤ}
    (h0 : 0 ≤ a1) (h : a1 ≤ a2) :
    calculateFee minFee p a1 ≤ calculateFee minFee p a2 := by
  rw [calculateFee_def, calculateFee_def]
  have h1 : feeCeil p a1 ≤ feeCeil p a2 := feeCeil_mono hp h
  have h2 : max minFee (feeCeil p a1) ≤ max minFee (feeCeil p a2) :=
    max_le_max le_rfl h1
  exact max_le_max le_rfl (feeCeil_mono hp (add_le_add h h2))

/-- Witness for C5 at the spec's example configuration. -/
theorem calculateFee_monotone_witness :
    calculateFee MINIMUM_FEE_SATS FEE_PERCENT 100
      ≤ calculateFee MINIMUM_FEE_SATS FEE_PERCENT 1000 :=
  calculateFee_monotone MINIMUM_FEE_SATS (by decide) (by decide) (by decide)

/-- Claim C6: with `MAX_TIPS_WITHDRAWABLE = 3` and `MAX_TIP_SATS = 1000`,
on four tips of amounts `500, 400, 300, 200` the greedy algorithm keeps
exactly the tips of amounts `500` and `400`: it sorts descending, takes the
first three (sum `1200 > 1000`), then drops the smallest selected tip. -/
theorem limitTips_example_greedy :
    limitTips Tip.amount MAX_TIPS_WITHDRAWABLE MAX_TIP_SATS
        [⟨0, 500⟩, ⟨1, 400⟩, ⟨2, 300⟩, ⟨3, 200⟩]
      = [⟨0, 500⟩, ⟨1, 400⟩] := by
  decide

/-- Claim C7: with `FEE_PERCENT = 1` and `MINIMUM_FEE_SATS = 2`,
`calculateFee 100 = 2` and `calculateFee 1000 = 11`. -/
theorem calculateFee_examples :
    calculateFee MINIMUM_FEE_SATS FEE_PERCENT 100 = 2 ∧
    calculateFee MINIMUM_FEE_SATS FEE_PERCENT 1000 = 11 := by
  constructor
  · show calculateFee 2 1 100 = 2
    rw [calculateFee_def,
      show feeCeil 1 (100 : ℤ) = 1 from feeCeil_eq (by norm_num) (by norm_num),
      show feeCeil 1 ((100 : ℤ) + max 2 1) = 2 from feeCeil_eq (by norm_num) (by norm_num)]
    decide
  · show calculateFee 2 1 1000 = 11
    rw [calculateFee_def,
      show feeCeil 1 (1000 : ℤ) = 10 from feeCeil_eq (by norm_num) (by norm_num),
      show feeCeil 1 ((1000 : ℤ) + max 2 10) = 11 from feeCeil_eq (by norm_num) (by norm_num)]
    decide

/-- Claim C8: the fee never falls below `MINIMUM_FEE_SATS`, and at
`amount = 0` the bound is tight: `calculateFee 0 = MINIMUM_FEE_SATS`,
given a non-negative minimum fee and `FEE_PERCENT` in `(0, 100)`. -/
theorem calculateFee_min_bound {minFee : ℤ} {p : ℚ} (hm : 0 ≤ minFee)
    (hp0 : 0 < p) (hp1 : p < 100) :
    (∀ a : ℤ, minFee ≤ calculateFee minFee p a) ∧
    calculateFee minFee p 0 = minFee := by
  refine ⟨fun a => by rw [calculateFee_def]; exact le_max_left _ _, ?_⟩
  rw [calculateFee_def]
  have hc0 : feeCeil p 0 = 0 := by
    simp [feeCeil]
  rw [hc0, max_eq_left hm, zero_add]
  have hle : feeCeil p minFee ≤ minFee := by
    rw [feeCeil]
    apply Int.ceil_le.mpr
    have hp100 : p / 100 ≤ 1 := by
      rw [div_le_one (by norm_num : (0 : ℚ) < 100)]
      exact le_of_lt hp1
    calc (minFee : ℚ) * (p / 100)
        ≤ (minFee : ℚ) * 1 := mul_le_mul_of_nonneg_left hp100 (by exact_mod_cast hm)
      _ = (minFee : ℚ) := mul_one _
  exact max_eq_left hle

/-- Witness for C8 at the spec's example configuration. -/
theorem calculateFee_min_bound_witness :
    MINIMUM_FEE_SATS ≤ calculateFee MINIMUM_FEE_SATS FEE_PERCENT 12345 ∧
    calculateFee MINIMUM_FEE_SATS FEE_PERCENT 0 = MINIMUM_FEE_SATS :=
  ⟨(calculateFee_min_bound (by decide) (by decide) (by decide)).1 12345,
   (calculateFee_min_bound (by decide) (by decide) (by decide)).2⟩

/-- Claim C9: `limitTips` has no failure mode: on the empty list it returns
the empty list, and when every individual tip's amount exceeds the
(non-negative) cap, the trimming loop terminates with the empty list as a
valid result. -/
theorem limitTips_no_failure {T : Type} (amt : T → ℤ) (mt : ℕ) {ms : ℤ}
    (tips : List T) :
    limitTips amt mt ms ([] : List T) = [] ∧
    (0 ≤ ms → (∀ t ∈ tips, ms < amt t) → limitTips amt mt ms tips = []) := by
  constructor
  · show trimTips amt ms ((sortByAmountDesc amt ([] : List T)).take mt) = []
    rw [show sortByAmountDesc amt ([] : List T) = [] from rfl, List.take_nil]
    rfl
  · intro h0 hall
    apply trimTipsFuel_all_gt amt h0 _ _ le_rfl
    intro t ht
    have hmem : t ∈ sortByAmountDesc amt tips := List.take_subset mt _ ht
    exact hall t ((List.mem_insertionSort _).mp hmem)

/-- Witness for C9 at the spec's example configuration: the empty input, and a
single tip whose amount `2000` alone exceeds `MAX_TIP_SATS = 1000`. -/
theorem limitTips_no_failure_witness :
    limitTips Tip.amount MAX_TIPS_WITHDRAWABLE MAX_TIP_SATS ([] : List Tip) = [] ∧
    limitTips Tip.amount MAX_TIPS_WITHDRAWABLE MAX_TIP_SATS [⟨0, 2000⟩] = [] :=
  ⟨(limitTips_no_failure Tip.amount MAX_TIPS_WITHDRAWABLE ([] : List Tip)).1,
   (limitTips_no_failure Tip.amount MAX_TIPS_WITHDRAWABLE [⟨0, 2000⟩]).2
     (by decide) (by decide)⟩

/-- Claim C10: the result of `limitTips` is sorted by non-increasing amount,
and is a sub-multiset of the input list: every returned tip is one of the
input tips, none is modified or fabricated. -/
theorem limitTips_sorted_and_subset {T : Type} (amt : T → ℤ) (mt : ℕ) (ms : ℤ)
    (tips : List T) :
    List.Sorted (byAmountDesc amt) (limitTips amt mt ms tips) ∧
    limitTips amt mt ms tips <+~ tips :=
  ⟨sorted_limitTips amt mt ms tips,
   (limitTips_sublist_sorted amt mt ms tips).subperm.trans
     (List.perm_insertionSort _ tips).subperm⟩

end IftiinTips
